import Mathlib

/-!
# Shallow embedding of `arena_allocator.h` (minahermina/arena-allocator)

This file embeds the region-based arena allocator of `src/arena_allocator.h`
into Lean 4 and proves/refutes the specification claims about it.

Modelling conventions:
* `size_t` arithmetic is `Nat`; where the C code can wrap (the sums inside
  `arena__align__size`), the embedding takes the result `% 2^64` explicitly.
  The bitwise page mask `~(page_size - 1)` on a 64-bit `size_t` is embedded
  as `(2^64 - 1) ^^^ (page_size - 1)`.
* The build target is the usual LP64 Linux configuration the header assumes:
  `sysconf(_SC_PAGESIZE) = 4096` and `sizeof(Region) = 40`
  (five 8-byte fields: `next`, `capacity`, `count`, `remaining`, `bytes`).
* A `Region` keeps its three accounting fields.  The `next` pointer is the
  chain structure itself, so an arena (the `head`/`tail` pair over a
  singly-linked chain that only ever grows at `tail`) is the list of regions
  from `head` to `tail`; the empty list is the `head = tail = NULL` state.
* A pointer returned to the caller is `(region index in the chain, byte
  offset from that region's bytes buffer)`.  Distinct regions are distinct
  OS mappings, hence disjoint address ranges; two views overlap iff they
  are in the same region and their offset intervals intersect.
* An assertion in the C source that can fire as a function of the modelled
  state is embedded as an `Option`-valued result (`none` = the process dies
  on the assert).  `assert(arena != NULL)` cannot fire here because the
  handle is passed by value, and the OS calls (`mmap`/`munmap`) are modelled
  as succeeding, as the spec treats their failure as an external fatal event.
* Byte memory is a function `Mem : region index → offset → byte`; the only
  code that reads or writes user bytes is the copy loop of `arena_realloc`,
  embedded as the sequential loop `copyLoop`.
-/

/-- `#define ARENA_REGION_SIZE (sizeof(Region))` — 40 bytes on LP64. -/
def ARENA_REGION_SIZE : Nat := 40

/-- `#define ARENA_PAGE_SIZE (sysconf(_SC_PAGESIZE))` — 4096 on the target. -/
def ARENA_PAGE_SIZE : Nat := 4096

/-- `#define ARENA_REGION_DEFAULT_CAPACITY (ARENA_PAGE_SIZE * 2)`. -/
def ARENA_REGION_DEFAULT_CAPACITY : Nat := ARENA_PAGE_SIZE * 2

/-- The size of `size_t`'s value space: `2^64`. -/
def USIZE : Nat := 2 ^ 64

/-- `arena__align__size`: `size_bytes = sizeof(Region) + size;
return (size_bytes + page_size - 1) & ~(page_size - 1);`
with `size_t` (mod `2^64`) arithmetic. -/
def arena__align__size (size : Nat) : Nat :=
  let region_size := ARENA_REGION_SIZE
  let page_size := ARENA_PAGE_SIZE
  let size_bytes := (region_size + size) % USIZE
  ((size_bytes + page_size - 1) % USIZE) &&& ((USIZE - 1) ^^^ (page_size - 1))

/-- The accounting header of one region (the `next` pointer is the list
structure of the chain; `bytes` is the base of the offset coordinate). -/
structure Region where
  capacity : Nat
  count : Nat
  remaining : Nat
deriving Repr, DecidableEq

/-- An arena: the chain of regions from `head` to `tail`.
`[]` is the `head = tail = NULL` (uninitialized / destroyed) state. -/
abbrev Chain := List Region

/-- A caller-visible pointer: (index of the owning region in the chain,
offset from that region's `bytes` buffer). -/
abbrev Ptr := Nat × Nat

/-- Byte memory: region index → offset into its buffer → byte value. -/
abbrev Mem := Nat → Nat → Nat

/-- Default region used with `List.getD` (never the value of a real lookup
in the theorems, which bound the index by the chain length). -/
def d0 : Region := { capacity := 0, count := 0, remaining := 0 }

/-- `arena__new__region(size)`: `mmap` a block of `size` bytes (modelled as
succeeding) and initialize the header in place:
`capacity = remaining = size - ARENA_REGION_SIZE; count = 0;
bytes = ptr + ARENA_REGION_SIZE; next = NULL`. -/
def arena__new__region (size : Nat) : Region :=
  { capacity := size - ARENA_REGION_SIZE
    count := 0
    remaining := size - ARENA_REGION_SIZE }

/-- `arena_init(arena, size)`: `size = arena__align__size(size);
region = arena__new__region(size); arena->head = arena->tail = region;`. -/
def arena_init (size : Nat) : Chain :=
  [arena__new__region (arena__align__size size)]

/-- `arena__append__region(arena, size)`:
`if (size < ARENA_REGION_DEFAULT_CAPACITY) size = DEFAULT;
else size = arena__align__size(size);`
then `arena->tail->next = arena__new__region(size); arena->tail = it`. -/
def arena__append__region (rs : Chain) (size : Nat) : Chain :=
  let sz := if size < ARENA_REGION_DEFAULT_CAPACITY then
              ARENA_REGION_DEFAULT_CAPACITY
            else
              arena__align__size size
  rs ++ [arena__new__region sz]

/-- The first-fit search loop of `arena_alloc`:
`for (curr = head; curr; curr = curr->next) if (size <= curr->remaining) {
ptr = curr->bytes + curr->count; curr->count += size;
curr->remaining -= size; return ptr; }`.
`idx` counts how many regions precede `rs` in the whole chain, so that the
returned pointer carries the absolute region index.  `none` means the loop
fell off the end of the chain without a match. -/
def arena__alloc__loop (rs : Chain) (size idx : Nat) : Option (Ptr × Chain) :=
  match rs with
  | [] => none
  | r :: rest =>
    if size ≤ r.remaining then
      some ((idx, r.count),
            { r with count := r.count + size,
                     remaining := r.remaining - size } :: rest)
    else
      match arena__alloc__loop rest size (idx + 1) with
      | some (p, rest') => some (p, r :: rest')
      | none => none

/-- `arena_alloc(arena, size)`: `assert(arena->head != NULL)` (the `none`
case), then the first-fit loop; if no region matches, append a region and
return `tail->bytes + tail->count` — note the source does NOT advance the
new region's `count`/`remaining` on this path. -/
def arena_alloc (rs : Chain) (size : Nat) : Option (Ptr × Chain) :=
  match rs with
  | [] => none
  | _ :: _ =>
    match arena__alloc__loop rs size 0 with
    | some res => some res
    | none =>
      let rs' := arena__append__region rs size
      let curr := rs'.getLastD d0
      some ((rs'.length - 1, curr.count), rs')

/-- One byte store: update `m` at pointer `p` to byte `b`. -/
def memWrite (m : Mem) (p : Ptr) (b : Nat) : Mem :=
  fun r o => if r = p.1 ∧ o = p.2 then b else m r o

/-- The copy loop of `arena_realloc`:
`for (i = 0; i < n; ++i) new_ptr[i] = old_ptr[i];`
done sequentially in increasing `i` (each write sees the previous ones). -/
def copyLoop (m : Mem) (src dst : Ptr) : Nat → Mem
  | 0 => m
  | n + 1 =>
    let m' := copyLoop m src dst n
    memWrite m' (dst.1, dst.2 + n) (m' src.1 (src.2 + n))

/-- `arena_realloc(arena, old_ptr, old_size, new_size)`:
if `new_size < old_size` return `old_ptr` untouched; otherwise allocate
`new_size` bytes via `arena_alloc` (whose head-assert is the only way this
can die) and copy the first `old_size` bytes over. -/
def arena_realloc (rs : Chain) (m : Mem) (old_ptr : Ptr)
    (old_size new_size : Nat) : Option (Ptr × Chain × Mem) :=
  if new_size < old_size then
    some (old_ptr, rs, m)
  else
    match arena_alloc rs new_size with
    | none => none
    | some (new_ptr, rs') =>
      some (new_ptr, rs', copyLoop m old_ptr new_ptr old_size)

/-- `arena_reset(arena)`: `assert(arena != NULL)` (cannot fire in the model);
then for every region `count = 0; remaining = capacity`.  The source has no
check on `head`, so an empty chain just skips the loop. -/
def arena_reset (rs : Chain) : Option Chain :=
  some (rs.map fun r => { r with count := 0, remaining := r.capacity })

/-- `arena__free__region(region)`: `assert(region != NULL)` (regions in the
chain are never NULL) and `munmap` (modelled as succeeding). -/
def arena__free__region (_ : Region) : Option Unit :=
  some ()

/-- The unmap loop of `arena_destroy` over the chain. -/
def destroyLoop : Chain → Option Unit
  | [] => some ()
  | r :: rest =>
    match arena__free__region r with
    | none => none
    | some _ => destroyLoop rest

/-- `arena_destroy(arena)`: walk the chain freeing each region, then
`head = tail = NULL`.  The source has no assert on `arena` or `head`;
an empty chain skips the loop and the function returns normally. -/
def arena_destroy (rs : Chain) : Option Chain :=
  match destroyLoop rs with
  | none => none
  | some _ => some []

/-! ## The accounting invariant and operation sequences -/

/-- The spec's per-region invariant:
`0 <= count <= capacity` and `remaining == capacity - count`. -/
def regionWF (r : Region) : Prop :=
  r.count ≤ r.capacity ∧ r.remaining = r.capacity - r.count

/-- The invariant for every region reachable from `head`. -/
def arenaWF (rs : Chain) : Prop :=
  ∀ r ∈ rs, regionWF r

instance (r : Region) : Decidable (regionWF r) := by
  unfold regionWF; infer_instance

instance (rs : Chain) : Decidable (arenaWF rs) := by
  unfold arenaWF; infer_instance

/-- The public mutating operations between `init` and `destroy`. -/
inductive Op where
  | alloc (size : Nat)
  | realloc (old_ptr : Ptr) (old_size new_size : Nat)
  | reset
deriving Repr, DecidableEq

/-- One public call on the arena state (chain plus byte memory);
`none` when the call dies on an assert. -/
def runOp (s : Chain × Mem) (op : Op) : Option (Chain × Mem) :=
  match op with
  | Op.alloc n => (arena_alloc s.1 n).map fun pr => (pr.2, s.2)
  | Op.realloc p o n =>
      (arena_realloc s.1 s.2 p o n).map fun x => (x.2.1, x.2.2)
  | Op.reset => (arena_reset s.1).map fun rs => (rs, s.2)

/-- A sequence of public calls, stopping at the first assert failure. -/
def runOps (s : Chain × Mem) : List Op → Option (Chain × Mem)
  | [] => some s
  | op :: ops =>
    match runOp s op with
    | none => none
    | some s' => runOps s' ops

/-- A sequence of plain `arena_alloc` calls (chain only; `alloc` does not
touch user bytes). -/
def runAllocs (rs : Chain) : List Nat → Option Chain
  | [] => some rs
  | n :: ns =>
    match arena_alloc rs n with
    | none => none
    | some (_, rs') => runAllocs rs' ns

/-- The all-zero byte memory (what `MAP_ANONYMOUS` mappings start as). -/
def zeroMem : Mem := fun _ _ => 0

/-- A concrete memory whose byte at offset `o` is `o % 256`, used to give the
copy-semantics theorems a nontrivial instance. -/
def offMem : Mem := fun _ o => o % 256

/-! ## Invariant preservation lemmas -/

lemma regionWF_new (size : Nat) : regionWF (arena__new__region size) := by
  simp [regionWF, arena__new__region]

lemma arenaWF_init (size : Nat) : arenaWF (arena_init size) := by
  intro r hr
  simp only [arena_init, List.mem_singleton] at hr
  subst hr
  exact regionWF_new _

lemma arenaWF_append (rs : Chain) (size : Nat) (h : arenaWF rs) :
    arenaWF (arena__append__region rs size) := by
  intro r hr
  simp only [arena__append__region, List.mem_append, List.mem_singleton] at hr
  rcases hr with hr | hr
  · exact h r hr
  · subst hr; exact regionWF_new _

lemma arenaWF_loop (size : Nat) :
    ∀ (rs : Chain) (idx : Nat) (p : Ptr) (rs' : Chain), arenaWF rs →
      arena__alloc__loop rs size idx = some (p, rs') → arenaWF rs' := by
  intro rs
  induction rs with
  | nil => intro idx p rs' h heq; simp [arena__alloc__loop] at heq
  | cons r rest ih =>
    intro idx p rs' h heq
    have hr : regionWF r := h r (List.mem_cons_self r rest)
    have hrest : arenaWF rest := fun x hx => h x (List.mem_cons_of_mem r hx)
    simp only [arena__alloc__loop] at heq
    by_cases hle : size ≤ r.remaining
    · simp only [hle, if_true, Option.some.injEq, Prod.mk.injEq] at heq
      obtain ⟨-, hchain⟩ := heq
      subst hchain
      intro x hx
      rcases List.mem_cons.mp hx with hx | hx
      · subst hx
        obtain ⟨h1, h2⟩ := hr
        exact ⟨by simp only; omega, by simp only; omega⟩
      · exact hrest x hx
    · simp only [hle, if_false] at heq
      cases hrec : arena__alloc__loop rest size (idx + 1) with
      | none => rw [hrec] at heq; exact absurd heq (by simp)
      | some val =>
        obtain ⟨p2, rest2⟩ := val
        rw [hrec] at heq
        simp only [Option.some.injEq, Prod.mk.injEq] at heq
        obtain ⟨-, hchain⟩ := heq
        subst hchain
        intro x hx
        rcases List.mem_cons.mp hx with hx | hx
        · subst hx; exact hr
        · exact ih (idx + 1) p2 rest2 hrest hrec x hx

lemma arenaWF_alloc (rs : Chain) (size : Nat) (p : Ptr) (rs' : Chain)
    (h : arenaWF rs) (heq : arena_alloc rs size = some (p, rs')) :
    arenaWF rs' := by
  cases rs with
  | nil => simp [arena_alloc] at heq
  | cons r rest =>
    simp only [arena_alloc] at heq
    cases hloop : arena__alloc__loop (r :: rest) size 0 with
    | some res =>
      obtain ⟨p2, rs2⟩ := res
      rw [hloop] at heq
      simp only [Option.some.injEq, Prod.mk.injEq] at heq
      obtain ⟨-, hchain⟩ := heq
      subst hchain
      exact arenaWF_loop size (r :: rest) 0 p2 rs2 h hloop
    | none =>
      rw [hloop] at heq
      simp only [Option.some.injEq, Prod.mk.injEq] at heq
      obtain ⟨-, hchain⟩ := heq
      subst hchain
      exact arenaWF_append _ _ h

lemma arenaWF_realloc (rs : Chain) (m : Mem) (p : Ptr) (o n : Nat)
    (q : Ptr) (rs' : Chain) (m' : Mem) (h : arenaWF rs)
    (heq : arena_realloc rs m p o n = some (q, rs', m')) :
    arenaWF rs' := by
  simp only [arena_realloc] at heq
  by_cases hlt : n < o
  · simp only [hlt, if_true, Option.some.injEq, Prod.mk.injEq] at heq
    obtain ⟨-, hchain, -⟩ := heq
    subst hchain
    exact h
  · simp only [hlt, if_false] at heq
    cases halloc : arena_alloc rs n with
    | none => rw [halloc] at heq; exact absurd heq (by simp)
    | some pr =>
      obtain ⟨q2, rs2⟩ := pr
      rw [halloc] at heq
      simp only [Option.some.injEq, Prod.mk.injEq] at heq
      obtain ⟨-, hchain, -⟩ := heq
      subst hchain
      exact arenaWF_alloc rs n q2 rs2 h halloc

lemma arenaWF_reset (rs rs' : Chain) (heq : arena_reset rs = some rs') :
    arenaWF rs' := by
  simp only [arena_reset, Option.some.injEq] at heq
  subst heq
  intro r hr
  simp only [List.mem_map] at hr
  obtain ⟨x, -, hx⟩ := hr
  subst hx
  simp [regionWF]

lemma arenaWF_runOp (s s' : Chain × Mem) (op : Op) (h : arenaWF s.1)
    (heq : runOp s op = some s') : arenaWF s'.1 := by
  cases op with
  | alloc n =>
    simp only [runOp, Option.map_eq_some'] at heq
    obtain ⟨⟨p, rs2⟩, halloc, hs⟩ := heq
    subst hs
    exact arenaWF_alloc s.1 n p rs2 h halloc
  | realloc p o n =>
    simp only [runOp, Option.map_eq_some'] at heq
    obtain ⟨⟨q, rs2, m2⟩, hre, hs⟩ := heq
    subst hs
    exact arenaWF_realloc s.1 s.2 p o n q rs2 m2 h hre
  | reset =>
    simp only [runOp, Option.map_eq_some'] at heq
    obtain ⟨rs2, hre, hs⟩ := heq
    subst hs
    exact arenaWF_reset s.1 rs2 hre

lemma arenaWF_runOps (ops : List Op) (s s' : Chain × Mem) (h : arenaWF s.1)
    (heq : runOps s ops = some s') : arenaWF s'.1 := by
  induction ops generalizing s with
  | nil =>
    simp only [runOps, Option.some.injEq] at heq
    subst heq
    exact h
  | cons op ops ih =>
    simp only [runOps] at heq
    cases hstep : runOp s op with
    | none => rw [hstep] at heq; exact absurd heq (by simp)
    | some s1 =>
      rw [hstep] at heq
      exact ih s1 (arenaWF_runOp s s1 op h hstep) heq

/-! ## First-fit characterization of the search loop -/

lemma alloc_loop_first_fit (size : Nat) :
    ∀ (rs : Chain) (idx i : Nat), i < rs.length →
      size ≤ (rs.getD i d0).remaining →
      (∀ j, j < i → (rs.getD j d0).remaining < size) →
      arena__alloc__loop rs size idx =
        some ((idx + i, (rs.getD i d0).count),
          rs.set i { rs.getD i d0 with
                     count := (rs.getD i d0).count + size,
                     remaining := (rs.getD i d0).remaining - size }) := by
  intro rs
  induction rs with
  | nil => intro idx i hi; simp at hi
  | cons r rest ih =>
    intro idx i hi hfit hfirst
    cases i with
    | zero =>
      simp only [List.getD_cons_zero] at hfit ⊢
      simp [arena__alloc__loop, hfit]
    | succ j =>
      have hr : r.remaining < size := by
        have := hfirst 0 (Nat.succ_pos j)
        simpa using this
      have hj : j < rest.length := by simpa using hi
      have hjfit : size ≤ (rest.getD j d0).remaining := by
        simpa using hfit
      have hjfirst : ∀ k, k < j → (rest.getD k d0).remaining < size := by
        intro k hk
        have := hfirst (k + 1) (by omega)
        simpa using this
      simp only [arena__alloc__loop]
      rw [if_neg (by omega)]
      rw [ih (idx + 1) j hj hjfit hjfirst]
      have harith : idx + 1 + j = idx + (j + 1) := by omega
      simp [harith]

lemma alloc_loop_none_of_nofit (size : Nat) :
    ∀ (rs : Chain) (idx : Nat), (∀ r ∈ rs, r.remaining < size) →
      arena__alloc__loop rs size idx = none := by
  intro rs
  induction rs with
  | nil => intro idx h; rfl
  | cons r rest ih =>
    intro idx h
    have hr : r.remaining < size := h r (List.mem_cons_self r rest)
    simp only [arena__alloc__loop]
    rw [if_neg (by omega),
        ih (idx + 1) (fun x hx => h x (List.mem_cons_of_mem r hx))]

/-! ## Single-region allocation runs (no growth) -/

lemma runAllocs_single (c : Nat) :
    ∀ (sizes : List Nat) (k : Nat), k + sizes.sum ≤ c →
      runAllocs [{ capacity := c, count := k, remaining := c - k }] sizes =
        some [{ capacity := c, count := k + sizes.sum,
                remaining := c - (k + sizes.sum) }] := by
  intro sizes
  induction sizes with
  | nil => intro k h; simp [runAllocs]
  | cons s ss ih =>
    intro k h
    have hsum : k + (s + ss.sum) ≤ c := by simpa using h
    have hs : s ≤ c - k := by omega
    have halloc : arena_alloc [Region.mk c k (c - k)] s
        = some ((0, k), [Region.mk c (k + s) (c - (k + s))]) := by
      simp [arena_alloc, arena__alloc__loop, hs, Nat.sub_sub]
    simp only [runAllocs]
    rw [halloc]
    show runAllocs [{ capacity := c, count := k + s, remaining := c - (k + s) }] ss = _
    rw [ih (k + s) (by omega)]
    simp [Nat.add_assoc]

/-! ## Byte-copy lemmas for `arena_realloc` -/

lemma copyLoop_frame (m : Mem) (p q : Ptr) :
    ∀ (n : Nat) (r o : Nat), (r ≠ q.1 ∨ o < q.2 ∨ q.2 + n ≤ o) →
      copyLoop m p q n r o = m r o := by
  intro n
  induction n with
  | zero => intro r o h; rfl
  | succ k ih =>
    intro r o h
    have hcond : ¬ (r = q.1 ∧ o = q.2 + k) := by
      rintro ⟨h1, h2⟩
      rcases h with h | h | h
      · exact h h1
      · omega
      · omega
    have hweak : r ≠ q.1 ∨ o < q.2 ∨ q.2 + k ≤ o := by
      rcases h with h | h | h
      · exact Or.inl h
      · exact Or.inr (Or.inl h)
      · exact Or.inr (Or.inr (by omega))
    simp only [copyLoop, memWrite]
    rw [if_neg hcond]
    exact ih r o hweak

lemma copyLoop_get (m : Mem) (p q : Ptr) :
    ∀ (n : Nat), (q.1 ≠ p.1 ∨ p.2 + n ≤ q.2 ∨ q.2 + n ≤ p.2) →
      ∀ i, i < n → copyLoop m p q n q.1 (q.2 + i) = m p.1 (p.2 + i) := by
  intro n
  induction n with
  | zero => intro hdisj i hi; omega
  | succ k ih =>
    intro hdisj i hi
    by_cases hik : i = k
    · subst hik
      have hfr : copyLoop m p q i p.1 (p.2 + i) = m p.1 (p.2 + i) := by
        apply copyLoop_frame
        rcases hdisj with h | h | h
        · exact Or.inl (Ne.symm h)
        · exact Or.inr (Or.inl (by omega))
        · exact Or.inr (Or.inr (by omega))
      simp [copyLoop, memWrite, hfr]
    · have hd : q.1 ≠ p.1 ∨ p.2 + k ≤ q.2 ∨ q.2 + k ≤ p.2 := by
        rcases hdisj with h | h | h
        · exact Or.inl h
        · exact Or.inr (Or.inl (by omega))
        · exact Or.inr (Or.inr (by omega))
      simp [copyLoop, memWrite, hik]
      exact ih hd i (by omega)

/-! ## Helper facts about `arena_destroy` -/

lemma destroyLoop_eq_some (rs : Chain) : destroyLoop rs = some () := by
  induction rs with
  | nil => rfl
  | cons r rest ih => simpa [destroyLoop, arena__free__region] using ih

lemma arena_destroy_eq (rs : Chain) : arena_destroy rs = some [] := by
  simp [arena_destroy, destroyLoop_eq_some]

/-! ## Claim theorems -/

/-- C1 (code_bug): the claim says every `arena_alloc` view is disjoint from
every other live view of the same arena.  The growth path of `arena_alloc`
never advances the new region's `count`, so after `arena_init(a, 1)` the
call `arena_alloc(a, 5000)` grows the chain and returns the new region's
offset 0 while leaving `count = 0`; the very next `arena_alloc(a, 5000)`
first-fit-matches that same region and returns the SAME address (region 1,
offset 0).  Two live 5000-byte allocations coincide, violating the claim. -/
theorem c1_growth_overlap :
    arena_alloc (arena_init 1) 5000 =
      some ((1, 0), [⟨4056, 0, 4056⟩, ⟨8152, 0, 8152⟩]) ∧
    arena_alloc [⟨4056, 0, 4056⟩, ⟨8152, 0, 8152⟩] 5000 =
      some ((1, 0), [⟨4056, 0, 4056⟩, ⟨8152, 5000, 3152⟩]) := by decide

/-- C2 (code_bug): the claim says `arena__append__region(arena, size)` maps
`max(ARENA_REGION_DEFAULT_CAPACITY, arena__align__size(size))` bytes, so the
new region always fits the pending request.  The code instead compares the
RAW `size` against the default: for `size = 8191 < 8192` it maps only 8192
bytes, i.e. capacity `8192 - 40 = 8152 < 8191` (while the claimed formula
gives 12288), and the growth path of `arena_alloc` then hands out an
8191-byte view at offset 0 of a region with only 8152 usable bytes —
the allocation does NOT fit inside the mapping. -/
theorem c2_append_undersized :
    arena__append__region (arena_init 1) 8191 =
      [⟨4056, 0, 4056⟩, ⟨8152, 0, 8152⟩] ∧
    max ARENA_REGION_DEFAULT_CAPACITY (arena__align__size 8191) = 12288 ∧
    (8152 : Nat) + ARENA_REGION_SIZE = 8192 ∧
    (8152 : Nat) < 8191 ∧
    arena_alloc (arena_init 1) 8191 =
      some ((1, 0), [⟨4056, 0, 4056⟩, ⟨8152, 0, 8152⟩]) := by decide

/-- C3 (confirmed): starting from `arena_init`, after any sequence of
`arena_alloc` / `arena_realloc` / `arena_reset` calls that does not die on
an assert, every region in the chain satisfies
`0 <= count <= capacity` and `remaining = capacity - count`. -/
theorem c3_accounting_invariant (size0 : Nat) (m0 : Mem) (ops : List Op)
    (rs : Chain) (m : Mem)
    (h : runOps (arena_init size0, m0) ops = some (rs, m)) :
    arenaWF rs :=
  arenaWF_runOps ops (arena_init size0, m0) (rs, m) (arenaWF_init size0) h

/-- Witness for C3 at a concrete run: `init 1; alloc 5; reset; alloc 7`. -/
theorem c3_witness :
    runOps (arena_init 1, zeroMem) [Op.alloc 5, Op.reset, Op.alloc 7] =
      some ([⟨4056, 7, 4049⟩], zeroMem) ∧
    arenaWF [⟨4056, 7, 4049⟩] :=
  ⟨rfl, c3_accounting_invariant 1 zeroMem [Op.alloc 5, Op.reset, Op.alloc 7]
    [⟨4056, 7, 4049⟩] zeroMem rfl⟩

/-- C4 (confirmed): when some region of the chain has `remaining >= size`,
`arena_alloc` picks the FIRST such region `i` in chain order, returns its
`bytes + count` (our `(i, count_i)`), bumps that region's `count` by `size`,
drops its `remaining` by `size`, and leaves every other region unchanged
(the conclusion is a single `List.set` at `i`). -/
theorem c4_first_fit (rs : Chain) (size i : Nat) (hi : i < rs.length)
    (hfit : size ≤ (rs.getD i d0).remaining)
    (hfirst : ∀ j, j < i → (rs.getD j d0).remaining < size) :
    arena_alloc rs size =
      some ((i, (rs.getD i d0).count),
        rs.set i { rs.getD i d0 with
                   count := (rs.getD i d0).count + size,
                   remaining := (rs.getD i d0).remaining - size }) := by
  cases rs with
  | nil => simp at hi
  | cons r rest =>
    simp only [arena_alloc]
    rw [alloc_loop_first_fit size (r :: rest) 0 i hi hfit hfirst]
    simp

/-- Witness for C4: two regions, the first too full, the second matches. -/
theorem c4_witness :
    arena_alloc [⟨10, 0, 10⟩, ⟨20, 0, 20⟩] 15 =
      some ((1, 0), [⟨10, 0, 10⟩, ⟨20, 15, 5⟩]) :=
  (c4_first_fit [⟨10, 0, 10⟩, ⟨20, 0, 20⟩] 15 1 (by decide) (by decide)
    (by decide)).trans (by decide)

/-- C5 (confirmed): `arena_realloc` with `new_size < old_size` returns
`old_ptr` and leaves the chain and the memory untouched; with
`new_size >= old_size` it allocates `new_size` fresh bytes through
`arena_alloc` and (when the source and destination ranges do not overlap)
the first `old_size` bytes of the result equal the bytes of `old_ptr` as
they were at call time. -/
theorem c5_realloc_semantics (rs rs2 : Chain) (m : Mem) (p q : Ptr)
    (osz nsz : Nat)
    (halloc : osz ≤ nsz → arena_alloc rs nsz = some (q, rs2))
    (hdisj : q.1 ≠ p.1 ∨ p.2 + osz ≤ q.2 ∨ q.2 + osz ≤ p.2) :
    (nsz < osz → arena_realloc rs m p osz nsz = some (p, rs, m)) ∧
    (osz ≤ nsz →
      arena_realloc rs m p osz nsz = some (q, rs2, copyLoop m p q osz) ∧
      ∀ i, i < osz → copyLoop m p q osz q.1 (q.2 + i) = m p.1 (p.2 + i)) := by
  constructor
  · intro hlt
    simp [arena_realloc, hlt]
  · intro hle
    have hnlt : ¬ nsz < osz := by omega
    refine ⟨?_, copyLoop_get m p q osz hdisj⟩
    simp [arena_realloc, hnlt, halloc hle]

/-- Witness for C5: grow a 2-byte block to 3 bytes inside one region; the
new view starts right after the old one and receives its two bytes. -/
theorem c5_witness :
    arena_realloc [⟨4056, 2, 4054⟩] offMem (0, 0) 2 3 =
      some ((0, 2), [⟨4056, 5, 4051⟩], copyLoop offMem (0, 0) (0, 2) 2) ∧
    copyLoop offMem (0, 0) (0, 2) 2 0 2 = offMem 0 0 ∧
    copyLoop offMem (0, 0) (0, 2) 2 0 3 = offMem 0 1 := by
  have h := c5_realloc_semantics [⟨4056, 2, 4054⟩] [⟨4056, 5, 4051⟩] offMem
    (0, 0) (0, 2) 2 3 (fun _ => by decide) (by decide)
  have h2 := h.2 (by decide)
  exact ⟨h2.1, h2.2 0 (by decide), h2.2 1 (by decide)⟩

/-- C6 counterexample: the claim says a second `arena_destroy` without an
intervening `arena_init` dies on an assertion.  The source has no assert on
`arena->head`; with `head = NULL` the free loop body never runs and the
function returns normally, so destroying twice is a silent no-op. -/
theorem c6_destroy_twice_not_fatal :
    arena_destroy (arena_init 1) = some [] ∧
    arena_destroy ([] : Chain) = some [] ∧
    arena_destroy ([] : Chain) ≠ none := by decide

/-- C6 (corrected): after `arena_destroy` returns, `head` and `tail` are
both none; a second `arena_destroy` without an intervening `arena_init`
completes normally as a no-op (the chain stays empty) — it is NOT an
assertion failure. -/
theorem c6_amended_destroy (rs rs' : Chain) (h : arena_destroy rs = some rs') :
    rs'.head? = none ∧ rs'.getLast? = none ∧ arena_destroy rs' = some rs' := by
  have h0 := arena_destroy_eq rs
  rw [h0] at h
  have hrs : rs' = [] := by
    injection h with h
    exact h.symm
  subst hrs
  exact ⟨rfl, rfl, arena_destroy_eq []⟩

/-- Witness for C6 (corrected), with the concrete arena `arena_init 1`. -/
theorem c6_witness :
    ([] : Chain).head? = none ∧ ([] : Chain).getLast? = none ∧
    arena_destroy ([] : Chain) = some ([] : Chain) :=
  c6_amended_destroy (arena_init 1) [] (by decide)

/-- C7 counterexample: the claim says `arena_reset` on an uninitialized
arena (head none) dies on an assertion.  `arena_reset` only asserts
`arena != NULL`; with `head = NULL` its loop body never runs and the call
returns normally. -/
theorem c7_reset_uninit_not_fatal :
    arena_reset ([] : Chain) = some [] ∧ arena_reset ([] : Chain) ≠ none := by
  decide

/-- C7 (corrected): `arena_reset` on an uninitialized arena (head none)
completes normally as a no-op, and `arena_reset` never fails on any chain
state — the fatal precondition in the source is only `arena != NULL`. -/
theorem c7_amended_reset_noop :
    arena_reset ([] : Chain) = some ([] : Chain) ∧
    ∀ rs : Chain, (arena_reset rs).isSome = true :=
  ⟨rfl, fun _ => rfl⟩

/-- C8 counterexample: the claim says `arena_init(arena, 1)` on 4096-byte
pages yields a region of capacity at least `2*4096 - sizeof(Region) = 8152`.
`arena_init` page-aligns the request WITHOUT applying the default doubling
(`ARENA_REGION_DEFAULT_CAPACITY` is used only by `arena__append__region`),
so the region's capacity is `4096 - 40 = 4056 < 8152`. -/
theorem c8_init_small_capacity :
    arena_init 1 = [⟨4056, 0, 4056⟩] ∧
    ¬ (2 * 4096 - ARENA_REGION_SIZE ≤ (4056 : Nat)) := by decide

/-- C8 (corrected): `arena_init(arena, 1)` on 4096-byte pages yields exactly
one region with capacity `4096 - sizeof(Region) = 4056` (one page, no
doubling); `alloc(arena, 100)` then `alloc(arena, 50)` both succeed from
that single region, leaving its `count` equal to 150. -/
theorem c8_amended_scenario :
    arena_init 1 = [⟨4056, 0, 4056⟩] ∧
    (4056 : Nat) = 4096 - ARENA_REGION_SIZE ∧
    arena_alloc [⟨4056, 0, 4056⟩] 100 = some ((0, 0), [⟨4056, 100, 3956⟩]) ∧
    arena_alloc [⟨4056, 100, 3956⟩] 50 =
      some ((0, 100), [⟨4056, 150, 3906⟩]) := by decide

/-- C9 (confirmed): for any `arena_init` size and any sequence of
`arena_alloc` calls whose sizes sum to at most the initial region's
capacity (`arena__align__size size0 - sizeof(Region)`), the whole run stays
inside that single region: the final chain is still ONE region (so
`arena__append__region` — the only post-init `mmap` caller — never ran)
holding exactly the summed byte count. -/
theorem c9_no_growth (size0 : Nat) (sizes : List Nat)
    (h : sizes.sum ≤ arena__align__size size0 - ARENA_REGION_SIZE) :
    runAllocs (arena_init size0) sizes =
      some [{ capacity := arena__align__size size0 - ARENA_REGION_SIZE,
              count := sizes.sum,
              remaining := arena__align__size size0 - ARENA_REGION_SIZE
                             - sizes.sum }] := by
  have hmain := runAllocs_single (arena__align__size size0 - ARENA_REGION_SIZE)
    sizes 0 (by omega)
  simpa [arena_init, arena__new__region] using hmain

/-- Witness for C9: `init 1` (capacity 4056), then allocs of 100 and 50. -/
theorem c9_witness :
    List.sum [100, 50] ≤ arena__align__size 1 - ARENA_REGION_SIZE ∧
    runAllocs (arena_init 1) [100, 50] = some [⟨4056, 150, 3906⟩] :=
  ⟨by decide, (c9_no_growth 1 [100, 50] (by decide)).trans (by decide)⟩

/-- C10 (confirmed): when no region fits (`remaining < size` for all of
them) and the arena is initialized, `arena_alloc` appends one region and
returns `(tail index, tail.count)` — offset 0, since the appended region's
`count` is 0 — and leaves the appended region's `count` at 0 and its
`remaining` equal to its `capacity`: the growth path does not advance the
accounting fields the way the in-chain match path does. -/
theorem c10_growth_no_advance (rs : Chain) (size : Nat) (hne : rs ≠ [])
    (hnofit : ∀ r ∈ rs, r.remaining < size) :
    arena_alloc rs size =
      some ((rs.length, 0), arena__append__region rs size) ∧
    ((arena__append__region rs size).getLastD d0).count = 0 ∧
    ((arena__append__region rs size).getLastD d0).remaining =
      ((arena__append__region rs size).getLastD d0).capacity := by
  have hlast : (arena__append__region rs size).getLastD d0 =
      arena__new__region (if size < ARENA_REGION_DEFAULT_CAPACITY
        then ARENA_REGION_DEFAULT_CAPACITY else arena__align__size size) := by
    simp [arena__append__region]
  cases rs with
  | nil => exact absurd rfl hne
  | cons r rest =>
    refine ⟨?_, ?_, ?_⟩
    · simp only [arena_alloc]
      rw [alloc_loop_none_of_nofit size (r :: rest) 0 hnofit]
      show some (((arena__append__region (r :: rest) size).length - 1,
          ((arena__append__region (r :: rest) size).getLastD d0).count),
          arena__append__region (r :: rest) size) = _
      rw [hlast]
      simp [arena__append__region, arena__new__region]
    · rw [hlast]; rfl
    · rw [hlast]; rfl

/-- Witness for C10: one full-enough region, request 5000 forces growth. -/
theorem c10_witness :
    arena_alloc [⟨4056, 0, 4056⟩] 5000 =
      some ((1, 0), arena__append__region [⟨4056, 0, 4056⟩] 5000) ∧
    ((arena__append__region [⟨4056, 0, 4056⟩] 5000).getLastD d0).count = 0 ∧
    ((arena__append__region [⟨4056, 0, 4056⟩] 5000).getLastD d0).remaining =
      ((arena__append__region [⟨4056, 0, 4056⟩] 5000).getLastD d0).capacity :=
  c10_growth_no_advance [⟨4056, 0, 4056⟩] 5000 (by decide) (by decide)
